import Mathlib

/-!
Verification development for the `syncer_swim` broadcast-scheduler core
(`src/broadcast_scheduler.py`).

Modelling conventions (shallow embedding of the Python source):

* JSON documents and Python values read from them are modelled by the
  inductive type `Syncer.Json`.  Python `None` and JSON `null` are the same
  object in the source, and are both modelled by `Json.null`.  JSON numbers
  are modelled as integers (`Json.int`); no claim below depends on
  fractional values.
* Fallible Python code is modelled in `Except Unit`: an uncaught Python
  exception (AttributeError, TypeError, ValueError, OSError, ...) is
  `.error ()`.  Code wrapped in `try/except Exception` in the source is
  modelled by catching that error locally.
* File I/O is modelled by explicit parameters: `safe_read_json` takes
  `Option Json` where `none` stands for "file missing, unreadable, or not
  parseable as JSON" (all three are caught by the source), and `some j`
  stands for a successfully parsed document.  Write outcomes appear as
  `Except Unit Unit` fields of the loop environment.
* Instants are modelled by integer epoch seconds plus an `Instant`
  (hour/minute/second) record mirroring the `datetime` fields the source
  reads.  `strftime` second-precision formatting is injective on whole
  seconds, so formatted timestamps are kept as their epoch value.
-/

namespace Syncer

/-- Model of a parsed JSON document / the Python values obtained from
`json.loads`.  Python `None` and JSON `null` are both `Json.null`. -/
inductive Json where
  | null : Json
  | bool : Bool → Json
  | int : Int → Json
  | str : String → Json
  | arr : List Json → Json
  | obj : List (String × Json) → Json
deriving Repr

/-- Association-list lookup used to model Python dict indexing/`dict.get`
(the source only builds dicts with distinct keys). -/
def alookup {β : Type} (k : String) : List (String × β) → Option β
  | [] => none
  | (k', v) :: rest => if k' = k then some v else alookup k rest

/-- Association-list update used to model Python dict assignment
`d[k] = v` (replaces an existing binding, else appends). -/
def dictSet {β : Type} : List (String × β) → String → β → List (String × β)
  | [], k, v => [(k, v)]
  | (k', v') :: rest, k, v =>
      if k' = k then (k, v) :: rest else (k', v') :: dictSet rest k v

/-- Model of Python `x.get(key, dflt)`.  Only dicts have `.get`; calling it
on any other value raises AttributeError (`.error`). -/
def pyGet (j : Json) (k : String) (dflt : Json) : Except Unit Json :=
  match j with
  | .obj kvs => .ok ((alookup k kvs).getD dflt)
  | _ => .error ()

/-- Model of Python dict `.get(key)` with its implicit `None` default, for
a dict whose entries are already in hand. -/
def dictGetD (kvs : List (String × Json)) (k : String) : Json :=
  (alookup k kvs).getD .null

/-- Model of Python truthiness for the values of `Json`. -/
def pyTruthy : Json → Bool
  | .null => false
  | .bool b => b
  | .int n => n != 0
  | .str s => !s.isEmpty
  | .arr xs => !xs.isEmpty
  | .obj kvs => !kvs.isEmpty

/-- Model of Python `a or b` (first operand if truthy, else second). -/
def pyOrJ (a b : Json) : Json := if pyTruthy a then a else b

/-- Whether a value may be used as a Python dict key (lists and dicts are
unhashable and raise TypeError). -/
def Json.hashableKey : Json → Bool
  | .arr _ => false
  | .obj _ => false
  | _ => true

/-- Model of Python `items.get(key)` where `key` is an arbitrary value:
raises on a non-dict receiver or an unhashable key; JSON-derived dict keys
are strings, so non-string hashable keys simply miss. -/
def dictGetByKey (container : Json) (key : Json) : Except Unit Json :=
  match container with
  | .obj kvs =>
      match key with
      | .str s => .ok ((alookup s kvs).getD .null)
      | .arr _ => .error ()
      | .obj _ => .error ()
      | _ => .ok .null
  | _ => .error ()

/-- Characters stripped by Python `int(str)` before parsing. -/
def isPyWhitespace (c : Char) : Bool :=
  c == ' ' || c == '\t' || c == '\n' || c == '\r' || c == '\x0b' || c == '\x0c'

/-- Digit run of Python `int(str)` after the first digit: ASCII digits with
single underscores allowed only between digits. -/
def pyDigitsCore : Nat → List Char → Option Nat
  | acc, [] => some acc
  | acc, c :: rest =>
      if c.isDigit then pyDigitsCore (acc * 10 + (c.toNat - 48)) rest
      else if c = '_' then
        match rest with
        | [] => none
        | d :: _ => if d.isDigit then pyDigitsCore acc rest else none
      else none

/-- Unsigned digit parse of Python `int(str)`: nonempty, starts with a
digit. -/
def pyDigits : List Char → Option Nat
  | [] => none
  | c :: rest => if c.isDigit then pyDigitsCore (c.toNat - 48) rest else none

/-- Model of Python `int(s)` on a string: strip whitespace, optional sign,
ASCII digit run (underscores between digits); anything else raises
ValueError, modelled as `none`. -/
def pyInt (s : String) : Option Int :=
  let cs := ((s.toList.dropWhile isPyWhitespace).reverse.dropWhile isPyWhitespace).reverse
  match cs with
  | '-' :: rest => (pyDigits rest).map (fun n => -(n : Int))
  | '+' :: rest => (pyDigits rest).map (fun n => (n : Int))
  | _ => (pyDigits cs).map (fun n => (n : Int))

/-- Model of Python `int(x)` on an arbitrary value: ints and bools convert,
strings are parsed, everything else raises TypeError. -/
def pyIntOf : Json → Except Unit Int
  | .int n => .ok n
  | .bool b => .ok (if b then 1 else 0)
  | .str s => match pyInt s with | some n => .ok n | none => .error ()
  | _ => .error ()

/-- Model of Python `float(x)` for the integral values this development
evaluates (ints, bools, integer strings); fractional literals are outside
the integer-number model and no claim below evaluates them. -/
def pyFloatOf : Json → Except Unit Json
  | .int n => .ok (.int n)
  | .bool b => .ok (.int (if b then 1 else 0))
  | .str s => match pyInt s with | some n => .ok (.int n) | none => .error ()
  | _ => .error ()

/-- Model of Python iteration `for x in v`: lists yield elements, strings
yield one-character strings, dicts yield their keys; other values raise
TypeError. -/
def pyIterate : Json → Except Unit (List Json)
  | .arr xs => .ok xs
  | .str s => .ok (s.toList.map (fun c => .str (String.singleton c)))
  | .obj kvs => .ok (kvs.map (fun kv => .str kv.1))
  | _ => .error ()

/-! ### Time model -/

/-- Clock fields of `datetime.now(timezone.utc)` that
`select_current_item` reads. -/
structure Instant where
  hour : Nat
  minute : Nat
  second : Nat
deriving Repr, DecidableEq

/-- Seconds since midnight of an instant, as computed at
`broadcast_scheduler.py:152`. -/
def Instant.daySeconds (t : Instant) : Int :=
  (t.hour : Int) * 3600 + (t.minute : Int) * 60 + (t.second : Int)

/-! ### safe_read_json / load_schedule (broadcast_scheduler.py:30-36, 121-123) -/

/-- Model of `safe_read_json`: `content` is `none` when the file is
missing, unreadable, or not parseable as JSON (all caught by the source's
`try/except`), and `some j` when it parses to `j`. -/
def safe_read_json (content : Option Json) (dflt : Json) : Json :=
  content.getD dflt

/-- The default document `load_schedule` builds
(`broadcast_scheduler.py:122`); `ts` is the formatted current time. -/
def scheduleDefault (ts : String) : Json :=
  .obj [("timezone", .str "UTC"), ("items", .arr []), ("last_updated", .str ts)]

/-- Model of `load_schedule` (`broadcast_scheduler.py:121-123`). -/
def load_schedule (content : Option Json) (ts : String) : Json :=
  safe_read_json content (scheduleDefault ts)

/-! ### parse_time_to_seconds / resolve_schedule_items
(broadcast_scheduler.py:126-145) -/

/-- Pieces of a character list split on ':', keeping empty pieces,
modelling Python `str.split(":")` (so `"" ↦ [""]`, `"::" ↦ ["","",""]`). -/
def splitColonAux : List Char → List (List Char)
  | [] => [[]]
  | c :: rest =>
      match splitColonAux rest with
      | [] => [[]]
      | piece :: pieces =>
          if c = ':' then [] :: piece :: pieces else (c :: piece) :: pieces

/-- Model of Python `time_str.split(":")`. -/
def pySplitColon (s : String) : List String :=
  (splitColonAux s.toList).map (fun cs => String.mk cs)

/-- Model of `parse_time_to_seconds`: split on ":", convert every part
with `int(...)`, require exactly three parts; any failure is caught and
yields `none`.  The argument is the raw value `item.get("time", "")`
returned, since the source's `try` also catches a non-string input. -/
def parse_time_to_seconds (timeVal : Json) : Option Int :=
  match timeVal with
  | .str s =>
      match (pySplitColon s).mapM pyInt with
      | none => none
      | some parts =>
          if parts.length ≠ 3 then none
          else some (parts[0]! * 3600 + parts[1]! * 60 + parts[2]!)
  | _ => none

/-- A normalized schedule entry `{**item, "_seconds": seconds}` built at
`broadcast_scheduler.py:143`: the original item's fields plus the parsed
`_seconds` value. -/
structure NormItem where
  fields : List (String × Json)
  seconds : Int
deriving Repr

/-- One iteration of the normalization loop in `resolve_schedule_items`:
a non-dict item raises AttributeError at `item.get`; an item whose time
does not parse is skipped (`.ok none`). -/
def normalizeItem (item : Json) : Except Unit (Option NormItem) :=
  match item with
  | .obj kvs =>
      match parse_time_to_seconds ((alookup "time" kvs).getD (.str "")) with
      | none => .ok none
      | some secs => .ok (some ⟨kvs, secs⟩)
  | _ => .error ()

/-- The normalization loop of `resolve_schedule_items`
(`broadcast_scheduler.py:139-143`), in iteration order. -/
def normItems : List Json → Except Unit (List NormItem)
  | [] => .ok []
  | item :: rest =>
      match normalizeItem item with
      | .error e => .error e
      | .ok none => normItems rest
      | .ok (some ni) =>
          match normItems rest with
          | .error e => .error e
          | .ok tail => .ok (ni :: tail)

/-- Stable insertion of an entry before the first entry with a
`_seconds` key not smaller than its own. -/
def insertBySeconds (x : NormItem) : List NormItem → List NormItem
  | [] => [x]
  | y :: ys =>
      if x.seconds ≤ y.seconds then x :: y :: ys else y :: insertBySeconds x ys

/-- The stable sort `normalized.sort(key=lambda x: x["_seconds"])`
(`broadcast_scheduler.py:144`).  A stable sort by a fixed key is unique,
so this structural insertion sort computes exactly what Python's stable
`list.sort` computes. -/
def sortBySeconds : List NormItem → List NormItem
  | [] => []
  | x :: rest => insertBySeconds x (sortBySeconds rest)

/-- Model of `resolve_schedule_items` (`broadcast_scheduler.py:136-145`). -/
def resolve_schedule_items (schedule : Json) : Except Unit (List NormItem) :=
  match pyGet schedule "items" (.arr []) with
  | .error e => .error e
  | .ok itemsVal =>
      match pyIterate itemsVal with
      | .error e => .error e
      | .ok elems =>
          match normItems elems with
          | .error e => .error e
          | .ok normalized => .ok (sortBySeconds normalized)

/-! ### select_current_item (broadcast_scheduler.py:148-173) -/

/-- The scan loop of `select_current_item` (`broadcast_scheduler.py:156-166`):
`full` is the whole list, the first list argument the unprocessed suffix,
then the running index, `current` and `next_item`.  The `elif` branch's
`item["_seconds"] > now_seconds` is automatic in the else-branch of the
first test, leaving only the `current is None` check; its `break` returns
immediately with `schedule_items[-1]` and the item just seen. -/
def select_go (full : List NormItem) (nowSec : Int) :
    List NormItem → Nat → Option NormItem → Option NormItem →
    Option NormItem × Option NormItem
  | [], _, current, next_item => (current, next_item)
  | item :: rest, idx, current, next_item =>
      if item.seconds ≤ nowSec then
        select_go full nowSec rest (idx + 1) (some item)
          (if idx + 1 < full.length then full[idx + 1]? else full[0]?)
      else
        if current.isNone then (full.getLast?, some item)
        else select_go full nowSec rest (idx + 1) current next_item

/-- Model of `select_current_item` (`broadcast_scheduler.py:148-173`). -/
def select_current_item (schedule_items : List NormItem) (now_utc : Instant) :
    Option NormItem × Option NormItem :=
  if schedule_items.isEmpty then (none, none)
  else
    let nowSec := now_utc.daySeconds
    let p := select_go schedule_items nowSec schedule_items 0 none none
    (p.1.orElse (fun _ => schedule_items.getLast?),
     p.2.orElse (fun _ => schedule_items[0]?))

/-! ### ffprobe_metadata / discover_media (broadcast_scheduler.py:45-108) -/

/-- One media file as seen by `discover_media`: its stem, its final
suffix (extension, with the dot), and its full path string.  Python's
`p.name` is `p.stem + p.suffix`. -/
structure MFile where
  stem : String
  ext : String
  path : String
deriving Repr, DecidableEq

/-- Python `p.name`. -/
def MFile.name (f : MFile) : String := f.stem ++ f.ext

def SUPPORTED_VIDEO_EXTS : List String := [".mp4", ".mkv", ".mov", ".avi", ".webm", ".m4v"]
def SUPPORTED_AUDIO_EXTS : List String := [".mp3", ".wav", ".flac", ".aac", ".ogg"]
def SUPPORTED_IMAGE_EXTS : List String := [".jpg", ".jpeg", ".png", ".webp"]

/-- Python `s.lower()` (ASCII case, which is all the extension sets use). -/
def strLower (s : String) : String := String.mk (s.toList.map Char.toLower)

/-- Model of `ffprobe_metadata` (`broadcast_scheduler.py:45-79`).
`probeOut` is `none` when the `subprocess.run`/`json.loads` block raises
(caught by the source, leaving `payload = {}`), and `some payload` when it
yields a parsed document.  The tag/duration extraction below the `try` is
not protected: a payload of unexpected shape raises out of the function. -/
def ffprobe_metadata (probeOut : Option Json) (f : MFile) :
    Except Unit (List (String × Json)) := do
  let payload := probeOut.getD (.obj [])
  let tags ← if pyTruthy payload then do
      let fmt ← pyGet payload "format" (.obj [])
      pyGet fmt "tags" (.obj [])
    else pure (.obj [])
  let duration ← if pyTruthy payload then do
      let fmt ← pyGet payload "format" (.obj [])
      pyGet fmt "duration" .null
    else pure .null
  let titleTag ← pyGet tags "title" .null
  let title := pyOrJ titleTag (.str f.stem)
  let descTag ← pyGet tags "description" .null
  let commentTag ← pyGet tags "comment" .null
  let description := pyOrJ descTag (pyOrJ commentTag (.str ""))
  let dateTag ← pyGet tags "date" .null
  let ctimeTag ← pyGet tags "creation_time" .null
  let original_air_date := pyOrJ dateTag (pyOrJ ctimeTag (.str ""))
  let duration_val ← if pyTruthy duration then pyFloatOf duration else pure .null
  pure [("title", title), ("description", description),
        ("original_air_date", original_air_date),
        ("duration_seconds", duration_val)]

/-- The image-by-stem dict comprehension at `broadcast_scheduler.py:88`
(later files with the same stem overwrite earlier ones, as in a dict
comprehension). -/
def images_by_stem (all_files : List MFile) : List (String × MFile) :=
  (all_files.filter (fun p => strLower p.ext ∈ SUPPORTED_IMAGE_EXTS)).foldl
    (fun acc p => dictSet acc p.stem p) []

/-- One iteration of the discovery loop (`broadcast_scheduler.py:90-107`). -/
def discoverStep (images : List (String × MFile)) (probe : MFile → Option Json)
    (items : List (String × Json)) (f : MFile) :
    Except Unit (List (String × Json)) := do
  let ext := strLower f.ext
  if ext ∈ SUPPORTED_VIDEO_EXTS then do
    let metadata ← ffprobe_metadata (probe f) f
    pure (dictSet items f.name
      (.obj ([("type", .str "video"), ("path", .str f.path)] ++ metadata)))
  else if ext ∈ SUPPORTED_AUDIO_EXTS then do
    let image := alookup f.stem images
    let metadata ← ffprobe_metadata (probe f) f
    pure (dictSet items f.name
      (.obj ([("type", .str "audio"), ("path", .str f.path),
              ("image_path", match image with
                             | some ip => .str ip.path
                             | none => .null)] ++ metadata)))
  else pure items

/-- The discovery loop over all files, in `rglob` order. -/
def discoverFold (images : List (String × MFile)) (probe : MFile → Option Json) :
    List MFile → List (String × Json) → Except Unit (List (String × Json))
  | [], acc => .ok acc
  | f :: rest, acc =>
      match discoverStep images probe acc f with
      | .error e => .error e
      | .ok acc' => discoverFold images probe rest acc'

/-- Model of `discover_media` (`broadcast_scheduler.py:82-108`): the
directory listing and the per-file probe outcome are parameters standing
for `rglob` and `ffprobe`. -/
def discover_media (dir_exists : Bool) (all_files : List MFile)
    (probe : MFile → Option Json) : Except Unit (List (String × Json)) :=
  if dir_exists then discoverFold (images_by_stem all_files) probe all_files []
  else .ok []

/-! ### build_status (broadcast_scheduler.py:176-206) -/

/-- The published `current_item` dict (`broadcast_scheduler.py:192-196`).
Note the raw `metadata_display_duration` value is published unconverted. -/
structure CurrentOut where
  time : Json
  media : Json
  metadata_display_duration : Json
deriving Repr

/-- The published `next_item` dict (`broadcast_scheduler.py:201-204`). -/
structure NextOut where
  time : Json
  media : Json
deriving Repr

/-- The status snapshot assembled by `build_status`.  Formatted timestamps
are kept as epoch seconds (see the header note); `metadata` is `Json.null`
both initially and when the lookup misses, exactly as in the source. -/
structure Status where
  current_utc : Int
  current_item : Option CurrentOut
  next_item : Option NextOut
  metadata : Json
  display_until_utc : Option Int
deriving Repr

/-- Model of `build_status` (`broadcast_scheduler.py:176-206`).  `now` is
the epoch value of `utc_now()`.  A normalized item always contains the
`"_seconds"` key, so the source's truthiness tests on `current_item` /
`next_item` coincide with the `Option` match.  `int(display_duration)` is
not in any `try` block: a non-convertible value raises out of the
function, as does a metadata cache of unexpected shape. -/
def build_status (current_item next_item : Option NormItem)
    (metadata_cache : Json) (now : Int) : Except Unit Status := do
  let items ← pyGet metadata_cache "items" (.obj [])
  let base : Status := ⟨now, none, none, .null, none⟩
  let withCur ← match current_item with
    | none => pure base
    | some ci => do
        let mediaKey := dictGetD ci.fields "media"
        let metadata ← dictGetByKey items mediaKey
        let displayDuration := (alookup "metadata_display_duration" ci.fields).getD (.int 10)
        let dd ← pyIntOf displayDuration
        pure { base with
          current_item := some ⟨dictGetD ci.fields "time", mediaKey, displayDuration⟩,
          metadata := metadata,
          display_until_utc := some (now + dd) }
  match next_item with
  | none => pure withCur
  | some nx =>
      pure { withCur with
        next_item := some ⟨dictGetD nx.fields "time", dictGetD nx.fields "media"⟩ }

/-! ### atomic_write_json (broadcast_scheduler.py:39-42) -/

/-- A filesystem path, split as Python `pathlib` sees it: everything
before the final suffix, and the final suffix (empty or starting with a
dot).  `with_suffix` replaces the final suffix. -/
structure PurePath where
  base : String
  suffix : String
deriving Repr, DecidableEq

/-- Python `path.with_suffix(s)`. -/
def with_suffix (p : PurePath) (s : String) : PurePath := ⟨p.base, s⟩

/-- The temporary path `path.with_suffix(path.suffix + ".tmp")` of
`broadcast_scheduler.py:40`. -/
def tmp_path (p : PurePath) : PurePath := with_suffix p (p.suffix ++ ".tmp")

/-- A filesystem snapshot: contents by path (`none` = no file). -/
def FS : Type := PurePath → Option String

/-- Python `path.write_text(content)`. -/
def write_text (fs : FS) (p : PurePath) (content : String) : FS :=
  fun q => if q = p then some content else fs q

/-- Python `src.replace(dst)`: an atomic rename that installs the source's
content at the destination and removes the source. -/
def fsReplace (fs : FS) (src dst : PurePath) : FS :=
  fun q => if q = dst then fs src else if q = src then none else fs q

/-- A JSON string escape covering the characters the documents here use
(backslash and quote; control-character escapes are immaterial to the
claims). -/
def json_escape (s : String) : String :=
  String.join (s.toList.map (fun c =>
    if c = '"' then "\\\"" else if c = '\\' then "\\\\" else String.singleton c))

mutual

/-- Serialization of a document, modelling `json.dumps` (the source's
`indent`/`sort_keys` pretty-printing options affect only layout and key
order, which no claim observes). -/
def json_dumps : Json → String
  | .null => "null"
  | .bool true => "true"
  | .bool false => "false"
  | .int n => toString n
  | .str s => "\"" ++ json_escape s ++ "\""
  | .arr xs => "[" ++ json_dumps_list xs ++ "]"
  | .obj kvs => "\x7b" ++ json_dumps_obj kvs ++ "\x7d"

def json_dumps_list : List Json → String
  | [] => ""
  | [x] => json_dumps x
  | x :: y :: rest => json_dumps x ++ ", " ++ json_dumps_list (y :: rest)

def json_dumps_obj : List (String × Json) → String
  | [] => ""
  | [(k, v)] => "\"" ++ json_escape k ++ "\": " ++ json_dumps v
  | (k, v) :: kv :: rest =>
      "\"" ++ json_escape k ++ "\": " ++ json_dumps v ++ ", " ++
      json_dumps_obj (kv :: rest)

end

/-- Model of `atomic_write_json` (`broadcast_scheduler.py:39-42`): the
resulting filesystem after writing the serialized document to the
temporary path and renaming it over `path`. -/
def atomic_write_json (fs : FS) (p : PurePath) (data : Json) : FS :=
  fsReplace (write_text fs (tmp_path p) (json_dumps data)) (tmp_path p) p

/-! ### run_scheduler (broadcast_scheduler.py:209-235) -/

def POLL_INTERVAL_SECONDS : Int := 1
def RESCAN_INTERVAL_SECONDS : Int := 10

/-- The loop-carried state of `run_scheduler` (`broadcast_scheduler.py:213-217`). -/
structure SchedState where
  metadata_cache : Json
  last_metadata_scan : Int
  schedule_cache : Json
  schedule_mtime : Int
deriving Repr

/-- The outside world as one tick of `run_scheduler` observes it: the
current time, the media directory listing and per-file probe outcomes,
the outcome of the metadata-file write, the schedule file's existence /
`stat` outcome / parsed content, and the outcome of the status-file
write.  `Except.error` fields stand for raised `OSError`s. -/
structure TickEnv where
  now_epoch : Int
  now_instant : Instant
  ts : String
  media_dir_exists : Bool
  media_files : List MFile
  probe : MFile → Option Json
  metadata_write : Except Unit Unit
  schedule_exists : Bool
  schedule_stat : Except Unit Int
  schedule_content : Option Json
  status_write : Except Unit Unit

/-- Model of `update_metadata_cache` (`broadcast_scheduler.py:111-118`):
discover media, build the payload, write it (uncaught on failure), and
return it. -/
def update_metadata_cache (env : TickEnv) : Except Unit Json := do
  let media_items ← discover_media env.media_dir_exists env.media_files env.probe
  let payload := Json.obj [("updated_at", .str env.ts), ("items", .obj media_items)]
  let _ ← env.metadata_write
  pure payload

/-- One iteration of the `while True` body of `run_scheduler`
(`broadcast_scheduler.py:219-235`).  There is no `try/except` in the
source loop: any raised error (`.error`) escapes the tick and terminates
the loop. -/
def scheduler_tick (env : TickEnv) (st : SchedState) : Except Unit SchedState := do
  let now := env.now_epoch
  let st1 ← if now - st.last_metadata_scan > RESCAN_INTERVAL_SECONDS then do
      let payload ← update_metadata_cache env
      pure { st with metadata_cache := payload, last_metadata_scan := now }
    else pure st
  let st2 ← if env.schedule_exists then do
      let mtime ← env.schedule_stat
      if mtime ≠ st1.schedule_mtime then
        pure { st1 with
          schedule_cache := load_schedule env.schedule_content env.ts,
          schedule_mtime := mtime }
      else pure st1
    else pure st1
  let schedule_items ← resolve_schedule_items st2.schedule_cache
  let (current_item, next_item) := select_current_item schedule_items env.now_instant
  let _status ← build_status current_item next_item st2.metadata_cache env.now_epoch
  let _ ← env.status_write
  pure st2

/-! ## Lemmas about the selection loop -/

/-- Once `current` is set and every remaining entry starts strictly after
`nowSec`, the loop leaves both accumulators unchanged. -/
theorem select_go_all_after (full : List NormItem) (nowSec : Int) :
    ∀ (rest : List NormItem) (k : Nat) (c : NormItem) (nxt : Option NormItem),
      (∀ x ∈ rest, nowSec < x.seconds) →
      select_go full nowSec rest k (some c) nxt = (some c, nxt) := by
  intro rest
  induction rest with
  | nil => intro k c nxt _; rfl
  | cons x rs ih =>
      intro k c nxt h
      have hx : nowSec < x.seconds := h x (List.mem_cons_self x rs)
      simp only [select_go, Option.isNone_some, Bool.false_eq_true, if_false,
        if_neg (by omega : ¬ x.seconds ≤ nowSec)]
      exact ih (k + 1) c nxt (fun y hy => h y (List.mem_cons_of_mem x hy))

/-- Running the loop from any position `k ≤ i`, where `i` is the last
index whose entry has started, yields entry `i` as current and the entry
after it (wrapping) as next. -/
theorem select_go_run (items : List NormItem) (nowSec : Int) (i : Nat)
    (hi : i < items.length)
    (hafter : ∀ x ∈ items.drop (i + 1), nowSec < x.seconds)
    (hpre : ∀ (j : Nat) (hj : j < items.length), j ≤ i → items[j].seconds ≤ nowSec) :
    ∀ (d k : Nat), k + d = i → ∀ (cur nxt : Option NormItem),
      select_go items nowSec (items.drop k) k cur nxt
        = (some items[i],
           if i + 1 < items.length then items[i + 1]? else items[0]?) := by
  intro d
  induction d with
  | zero =>
      intro k hk cur nxt
      have hk' : i = k := by omega
      subst hk'
      rw [List.drop_eq_getElem_cons hi]
      simp only [select_go, if_pos (hpre i hi le_rfl)]
      exact select_go_all_after items nowSec (items.drop (i + 1)) (i + 1)
        items[i] _ hafter
  | succ d ih =>
      intro k hk cur nxt
      have hki : k < i := by omega
      have hkl : k < items.length := Nat.lt_trans hki hi
      rw [List.drop_eq_getElem_cons hkl]
      simp only [select_go, if_pos (hpre k hkl (Nat.le_of_lt hki))]
      exact ih (k + 1) (by omega) (some items[k]) _

/-- C1: on a non-empty schedule sorted ascending by `_seconds`, when entry
`i` has started (`time_of_day ≤ t`) and every later entry has not, the
resolver returns entry `i` as current — the last entry whose
`time_of_day ≤ t`, inclusively at the boundary, and among equal times the
later one in stable sort order — and the entry at position
`(i+1) mod length` as next, wrapping to the first entry after the last. -/
theorem C1_select_last_started (items : List NormItem) (t : Instant)
    (hsorted : items.Pairwise (fun a b => a.seconds ≤ b.seconds))
    (i : Nat) (hi : i < items.length)
    (hcur : items[i].seconds ≤ t.daySeconds)
    (hafter : ∀ x ∈ items.drop (i + 1), t.daySeconds < x.seconds) :
    select_current_item items t
      = (some items[i], items[(i + 1) % items.length]?) := by
  have hn : 0 < items.length := Nat.lt_of_le_of_lt (Nat.zero_le i) hi
  have hne : items ≠ [] := List.ne_nil_of_length_pos hn
  have hpre : ∀ (j : Nat) (hj : j < items.length), j ≤ i →
      items[j].seconds ≤ t.daySeconds := by
    intro j hj hji
    rcases Nat.lt_or_ge j i with hlt | hge
    · exact le_trans (List.pairwise_iff_getElem.mp hsorted j i hj hi hlt) hcur
    · have : j = i := Nat.le_antisymm hji hge
      subst this; exact hcur
  have hrun := select_go_run items t.daySeconds i hi hafter hpre i 0 (by omega)
    none none
  rw [List.drop_zero] at hrun
  simp only [select_current_item, hrun]
  rw [if_neg (by simp [hne])]
  by_cases hlt : i + 1 < items.length
  · have : (i + 1) % items.length = i + 1 := Nat.mod_eq_of_lt hlt
    simp [hlt, this, List.getElem?_eq_getElem hlt, Option.orElse]
  · have hlen : i + 1 = items.length := by omega
    have : (i + 1) % items.length = 0 := by rw [hlen]; exact Nat.mod_self _
    simp [hlt, this, List.getElem?_eq_getElem hn, Option.orElse]

def w1e0 : NormItem := ⟨[("time", .str "06:00:00"), ("media", .str "m6")], 21600⟩
def w1e1 : NormItem := ⟨[("time", .str "18:00:00"), ("media", .str "m18")], 64800⟩

/-- Witness for C1: two entries at 06:00:00 and 18:00:00 resolved at
09:00:00 select the 06:00:00 entry as current and the 18:00:00 entry as
next. -/
theorem C1_select_last_started_witness :
    select_current_item [w1e0, w1e1] ⟨9, 0, 0⟩ = (some w1e0, some w1e1) := by
  have h := C1_select_last_started [w1e0, w1e1] ⟨9, 0, 0⟩
    (by constructor <;> simp [w1e0, w1e1])
    0 (by simp)
    (by decide)
    (by intro x hx; simp at hx; subst hx; decide)
  simpa using h

/-- C2: whenever `t` lies strictly before the first entry's time of day,
the resolver wraps around: the last entry is current and the first entry
is next. -/
theorem C2_wraparound_before_first (items : List NormItem) (t : Instant)
    (h : items ≠ [])
    (hsorted : items.Pairwise (fun a b => a.seconds ≤ b.seconds))
    (hbefore : t.daySeconds < (items.head h).seconds) :
    select_current_item items t
      = (some (items.getLast h), some (items.head h)) := by
  obtain ⟨x, rest, rfl⟩ := List.exists_cons_of_ne_nil h
  have hx : t.daySeconds < x.seconds := by simpa using hbefore
  simp only [select_current_item, select_go,
    if_neg (by omega : ¬ x.seconds ≤ t.daySeconds), Option.isNone_none,
    if_pos rfl]
  rw [if_neg (by simp)]
  rw [List.getLast?_eq_getLast (x :: rest) (by simp)]
  simp [Option.orElse]

def w2e600 : NormItem := ⟨[("time", .str "06:00:00"), ("media", .str "m6")], 21600⟩
def w2e1800 : NormItem := ⟨[("time", .str "18:00:00"), ("media", .str "m18")], 64800⟩

/-- Witness for C2, which is exactly the spec's example: entries at
06:00:00 and 18:00:00 resolved at 02:00:00 yield current = the 18:00:00
entry and next = the 06:00:00 entry. -/
theorem C2_wraparound_before_first_witness :
    select_current_item [w2e600, w2e1800] ⟨2, 0, 0⟩
      = (some w2e1800, some w2e600) := by
  have h := C2_wraparound_before_first [w2e600, w2e1800] ⟨2, 0, 0⟩
    (by simp)
    (by constructor <;> simp [w2e600, w2e1800])
    (by decide)
  simpa using h

/-- C3: the resolver returns both a current and a next entry exactly when
the schedule is non-empty; on the empty schedule it returns
(absent, absent). -/
theorem C3_totality (items : List NormItem) (t : Instant) :
    (items = [] → select_current_item items t = (none, none))
    ∧ (items ≠ [] →
        ((select_current_item items t).1.isSome = true
          ∧ (select_current_item items t).2.isSome = true)) := by
  constructor
  · rintro rfl; rfl
  · intro h
    obtain ⟨x, rest, rfl⟩ := List.exists_cons_of_ne_nil h
    simp only [select_current_item]
    rw [if_neg (by simp)]
    constructor
    · cases hp : (select_go (x :: rest) t.daySeconds (x :: rest) 0 none none).1 with
      | none =>
          simp [hp, Option.orElse, List.getLast?_eq_getLast (x :: rest) (by simp)]
      | some c => simp [hp, Option.orElse]
    · cases hp : (select_go (x :: rest) t.daySeconds (x :: rest) 0 none none).2 with
      | none => simp [hp, Option.orElse]
      | some c => simp [hp, Option.orElse]

def w3e : NormItem := ⟨[("time", .str "00:00:30"), ("media", .str "m")], 30⟩

/-- Witness for C3: instantiating both conjuncts — the empty schedule
yields (absent, absent) and a one-entry schedule yields two present
results. -/
theorem C3_totality_witness :
    select_current_item [] ⟨5, 0, 0⟩ = (none, none)
    ∧ ((select_current_item [w3e] ⟨5, 0, 0⟩).1.isSome = true
        ∧ (select_current_item [w3e] ⟨5, 0, 0⟩).2.isSome = true) :=
  ⟨(C3_totality [] ⟨5, 0, 0⟩).1 rfl,
   (C3_totality [w3e] ⟨5, 0, 0⟩).2 (by simp)⟩

/-! ## Lemmas about schedule loading and normalization -/

/-- Membership in a stable insertion. -/
theorem mem_insertBySeconds {a x : NormItem} :
    ∀ {l : List NormItem}, a ∈ insertBySeconds x l ↔ a = x ∨ a ∈ l := by
  intro l
  induction l with
  | nil => simp [insertBySeconds]
  | cons y ys ih =>
      simp only [insertBySeconds]
      by_cases h : x.seconds ≤ y.seconds
      · simp [h]
      · simp only [h, if_false, List.mem_cons, ih]
        tauto

/-- Membership is preserved by the stable sort. -/
theorem mem_sortBySeconds {a : NormItem} :
    ∀ {l : List NormItem}, a ∈ sortBySeconds l ↔ a ∈ l := by
  intro l
  induction l with
  | nil => simp [sortBySeconds]
  | cons x xs ih =>
      simp [sortBySeconds, mem_insertBySeconds, ih]

/-- Every entry in a successful normalization comes from some input item
via `normalizeItem`. -/
theorem normItems_mem : ∀ (elems : List Json) (out : List NormItem),
    normItems elems = .ok out →
    ∀ ni ∈ out, ∃ item ∈ elems, normalizeItem item = .ok (some ni) := by
  intro elems
  induction elems with
  | nil =>
      intro out h ni hni
      simp only [normItems, Except.ok.injEq] at h
      subst h
      simp at hni
  | cons x rest ih =>
      intro out h ni hni
      simp only [normItems] at h
      cases hx : normalizeItem x with
      | error e => rw [hx] at h; simp at h
      | ok o =>
          rw [hx] at h
          cases o with
          | none =>
              obtain ⟨item, hitem, hrest⟩ := ih out h ni hni
              exact ⟨item, List.mem_cons_of_mem x hitem, hrest⟩
          | some y =>
              cases hr : normItems rest with
              | error e => rw [hr] at h; simp at h
              | ok tail =>
                  rw [hr] at h
                  simp only [Except.ok.injEq] at h
                  subst h
                  rcases List.mem_cons.mp hni with h1 | h1
                  · subst h1; exact ⟨x, List.mem_cons_self x rest, hx⟩
                  · obtain ⟨item, hitem, hmi⟩ := ih tail hr ni h1
                    exact ⟨item, List.mem_cons_of_mem x hitem, hmi⟩

/-- Inversion of a successful `parse_time_to_seconds`: the input was a
string splitting into exactly three `int`-convertible parts, and the
result is the h*3600 + m*60 + s combination of those parts — with no
range restriction on any of them. -/
theorem parse_time_structure (v : Json) (secs : Int)
    (h : parse_time_to_seconds v = some secs) :
    ∃ (s : String) (a b c : Int), v = .str s
      ∧ (pySplitColon s).mapM pyInt = some [a, b, c]
      ∧ secs = a * 3600 + b * 60 + c := by
  cases v with
  | str s =>
      simp only [parse_time_to_seconds] at h
      split at h
      · simp at h
      · rename_i parts hm
        by_cases hl : parts.length ≠ 3
        · rw [if_pos hl] at h; simp at h
        · rw [if_neg hl] at h
          push_neg at hl
          obtain ⟨a, b, c, rfl⟩ := List.length_eq_three.mp hl
          simp only [Option.some.injEq] at h
          exact ⟨s, a, b, c, rfl, hm, by simpa using h.symm⟩
  | null => simp [parse_time_to_seconds] at h
  | bool b => simp [parse_time_to_seconds] at h
  | int n => simp [parse_time_to_seconds] at h
  | arr xs => simp [parse_time_to_seconds] at h
  | obj kvs => simp [parse_time_to_seconds] at h

/-- Reduction of `resolve_schedule_items` on a document whose first key
is a well-shaped items list. -/
theorem resolve_items_arr (xs : List Json) (extra : List (String × Json)) :
    resolve_schedule_items (.obj (("items", .arr xs) :: extra))
      = match normItems xs with
        | .error e => .error e
        | .ok normalized => .ok (sortBySeconds normalized) := rfl

/-- Removing an item whose time fails to parse does not change the
normalization of the rest. -/
theorem normItems_skip (kvs : List (String × Json))
    (h : parse_time_to_seconds ((alookup "time" kvs).getD (.str "")) = none) :
    ∀ (pre post : List Json),
      normItems (pre ++ .obj kvs :: post) = normItems (pre ++ post) := by
  intro pre
  induction pre with
  | nil =>
      intro post
      simp only [List.nil_append, normItems, normalizeItem, h]
  | cons x pre' ih =>
      intro post
      simp only [List.cons_append, normItems, List.append_eq]
      cases hx : normalizeItem x with
      | error e => rfl
      | ok o =>
          cases o with
          | none => exact ih post
          | some y => rw [ih post]

def c7kvs : List (String × Json) :=
  [("time", Json.str "25:00:00"), ("media", Json.str "overnight")]

/-- Counterexample to C7 as stated: the entry with time string
"25:00:00" — not a valid time of day — is retained by schedule loading
with `_seconds` = 90000, violating the claimed invariant
`0 ≤ v < 86400`. -/
theorem C7_counterexample :
    resolve_schedule_items (.obj [("items", .arr [.obj c7kvs])])
      = .ok [⟨c7kvs, 90000⟩]
    ∧ ¬ ((90000 : Int) < 86400) :=
  ⟨rfl, by decide⟩

/-- C7 amended: every entry retained by schedule loading has `_seconds`
equal to h*3600 + m*60 + s for the three colon-separated,
`int`-convertible parts of its time string (the parse does not enforce
`0 ≤ v < 86400` nor two-digit fields), and an entry whose time value does
not parse is skipped silently rather than failing the load. -/
theorem C7_amended_time_structure :
    (∀ (schedule : Json) (result : List NormItem) (ni : NormItem),
        resolve_schedule_items schedule = .ok result → ni ∈ result →
        ∃ (s : String) (a b c : Int),
          (alookup "time" ni.fields).getD (.str "") = .str s
          ∧ (pySplitColon s).mapM pyInt = some [a, b, c]
          ∧ ni.seconds = a * 3600 + b * 60 + c)
    ∧ (∀ kvs : List (String × Json),
        parse_time_to_seconds ((alookup "time" kvs).getD (.str "")) = none →
        normalizeItem (.obj kvs) = .ok none) := by
  constructor
  · intro schedule result ni hok hmem
    unfold resolve_schedule_items at hok
    split at hok
    · simp at hok
    · split at hok
      · simp at hok
      · split at hok
        · simp at hok
        · rename_i normalized hn
          simp only [Except.ok.injEq] at hok
          subst hok
          have hmem' : ni ∈ normalized := mem_sortBySeconds.mp hmem
          obtain ⟨item, _hin, hni⟩ := normItems_mem _ normalized hn ni hmem'
          cases item with
          | obj kvs =>
              simp only [normalizeItem] at hni
              cases hp : parse_time_to_seconds ((alookup "time" kvs).getD (.str "")) with
              | none => rw [hp] at hni; simp at hni
              | some secs =>
                  rw [hp] at hni
                  simp only [Except.ok.injEq, Option.some.injEq] at hni
                  obtain ⟨s, a, b, c, hs, hsp, hv⟩ := parse_time_structure _ _ hp
                  refine ⟨s, a, b, c, ?_, hsp, ?_⟩
                  · rw [← hni]; exact hs
                  · rw [← hni]; exact hv
          | null => simp [normalizeItem] at hni
          | bool b => simp [normalizeItem] at hni
          | int n => simp [normalizeItem] at hni
          | str s => simp [normalizeItem] at hni
          | arr xs => simp [normalizeItem] at hni
  · intro kvs h
    simp [normalizeItem, h]

def c7wkvs : List (String × Json) := [("time", Json.str "07:05:03")]

/-- Witness for the amended C7, at a retained entry with time
"07:05:03" (seconds 25503) and a skipped entry with time "oops". -/
theorem C7_amended_time_structure_witness :
    (∃ (s : String) (a b c : Int),
        (alookup "time" (⟨c7wkvs, 25503⟩ : NormItem).fields).getD (.str "") = .str s
        ∧ (pySplitColon s).mapM pyInt = some [a, b, c]
        ∧ (⟨c7wkvs, 25503⟩ : NormItem).seconds = a * 3600 + b * 60 + c)
    ∧ normalizeItem (.obj [("time", Json.str "oops")]) = .ok none :=
  ⟨C7_amended_time_structure.1 (.obj [("items", .arr [.obj c7wkvs])])
      [⟨c7wkvs, 25503⟩] ⟨c7wkvs, 25503⟩ rfl (List.mem_singleton.mpr rfl),
   C7_amended_time_structure.2 [("time", Json.str "oops")] rfl⟩

def c6doc : Json := .arr [.int 1, .int 2, .int 3]

def c6env : TickEnv :=
  ⟨0, ⟨0, 0, 0⟩, "TS", false, [], fun _ => none, .ok (), true, .ok 1,
   some c6doc, .ok ()⟩

def c6st : SchedState := ⟨.obj [("items", .obj [])], 0, scheduleDefault "TS", 0⟩

/-- Counterexample to C6 as stated: the schedule file content
`[1, 2, 3]` is valid JSON but not a recognizable schedule document, yet
`load_schedule` returns it unchanged (not the safe empty default), and
the scheduler tick then fails on it — `resolve_schedule_items` raises
AttributeError at `schedule.get("items", [])`. -/
theorem C6_counterexample :
    load_schedule (some c6doc) "TS" = c6doc
    ∧ resolve_schedule_items c6doc = .error ()
    ∧ scheduler_tick c6env c6st = .error () :=
  ⟨rfl, rfl, rfl⟩

/-- C6 amended: schedule content that is missing, unreadable, or not
parseable as JSON yields the safe empty default (an empty items list, on
which resolution succeeds); and an individual entry whose time fails to
parse is filtered out without affecting the rest of the load.  (Valid
JSON of a non-document shape, however, is passed through and crashes the
loop — see the counterexample.) -/
theorem C6_amended_safe_default :
    (∀ ts : String,
        load_schedule none ts = scheduleDefault ts
        ∧ resolve_schedule_items (load_schedule none ts) = .ok [])
    ∧ (∀ (pre post : List Json) (kvs extra : List (String × Json)),
        parse_time_to_seconds ((alookup "time" kvs).getD (.str "")) = none →
        resolve_schedule_items (.obj (("items", .arr (pre ++ .obj kvs :: post)) :: extra))
          = resolve_schedule_items (.obj (("items", .arr (pre ++ post)) :: extra))) := by
  constructor
  · intro ts; exact ⟨rfl, rfl⟩
  · intro pre post kvs extra h
    rw [resolve_items_arr, resolve_items_arr, normItems_skip kvs h pre post]

/-- Witness for the amended C6: the missing/unparsable case at a concrete
timestamp, and the filtering case at a concrete two-entry items list with
one bad time. -/
theorem C6_amended_safe_default_witness :
    (load_schedule none "2026-01-01T00:00:00Z" = scheduleDefault "2026-01-01T00:00:00Z"
      ∧ resolve_schedule_items (load_schedule none "2026-01-01T00:00:00Z") = .ok [])
    ∧ resolve_schedule_items
        (.obj [("items", .arr [.obj [("time", Json.str "bad")],
                               .obj [("time", Json.str "01:00:00")]])])
        = resolve_schedule_items
            (.obj [("items", .arr [.obj [("time", Json.str "01:00:00")]])]) :=
  ⟨C6_amended_safe_default.1 "2026-01-01T00:00:00Z",
   C6_amended_safe_default.2 [] [.obj [("time", Json.str "01:00:00")]]
     [("time", Json.str "bad")] [] rfl⟩

/-! ## The scheduler loop's failure behaviour (C4) -/

theorem except_pure {α : Type} (a : α) : (pure a : Except Unit α) = .ok a := rfl

theorem except_bind_ok {α β : Type} (a : α) (f : α → Except Unit β) :
    (Except.ok a >>= f) = f a := rfl

theorem except_bind_error {α β : Type} (f : α → Except Unit β) :
    ((Except.error () : Except Unit α) >>= f) = .error () := rfl

/-- Resolution of the safe default schedule document always succeeds with
no entries. -/
theorem resolve_scheduleDefault (ts : String) :
    resolve_schedule_items (scheduleDefault ts) = .ok [] := rfl

/-- Building a status with no current and no next item succeeds on any
metadata cache whose first key is `"items"`. -/
theorem build_status_none_none (v : Json) (more : List (String × Json)) (now : Int) :
    build_status none none (.obj (("items", v) :: more)) now
      = .ok ⟨now, none, none, .null, none⟩ := rfl

def c4st : SchedState := ⟨.obj [("items", .obj [])], 0, scheduleDefault "TS", 0⟩

def c4envFail : TickEnv :=
  ⟨0, ⟨0, 0, 0⟩, "TS", false, [], fun _ => none, .ok (), false, .ok 0, none,
   .error ()⟩

def c4envOk : TickEnv :=
  ⟨0, ⟨0, 0, 0⟩, "TS", false, [], fun _ => none, .ok (), false, .ok 0, none,
   .ok ()⟩

/-- Counterexample to C4 as stated: the loop body of `run_scheduler` has
no `try/except`, so an I/O error while writing the status file escapes
the tick and terminates the loop.  The two environments below are
identical except for the outcome of the status-file write: with the
write failing the tick raises, with it succeeding the tick completes. -/
theorem C4_counterexample :
    scheduler_tick c4envFail c4st = .error ()
    ∧ scheduler_tick c4envOk c4st = .ok c4st := ⟨rfl, rfl⟩

/-- C4 amended: failures that are caught are those inside
`safe_read_json` and `ffprobe_metadata` — an unreadable or unparsable
schedule document is replaced by the safe default and the tick proceeds
with cached state; but I/O errors raised while writing the status or
metadata files or while reading the schedule file's modification time
are not caught and terminate the loop (see the counterexample).  This
theorem proves the caught half: with the writes and `stat` succeeding, a
tick that reloads an unreadable/unparsable schedule file succeeds and
carries the safe default forward. -/
theorem C4_amended_read_failures_caught (env : TickEnv) (st : SchedState)
    (m : Int) (v : Json) (more : List (String × Json))
    (hscan : ¬ env.now_epoch - st.last_metadata_scan > RESCAN_INTERVAL_SECONDS)
    (hex : env.schedule_exists = true)
    (hstat : env.schedule_stat = .ok m)
    (hm : m ≠ st.schedule_mtime)
    (hcontent : env.schedule_content = none)
    (hmeta : st.metadata_cache = .obj (("items", v) :: more))
    (hwrite : env.status_write = .ok ()) :
    scheduler_tick env st
      = .ok { st with schedule_cache := scheduleDefault env.ts,
                      schedule_mtime := m } := by
  obtain ⟨mc, ls, sc, smt⟩ := st
  obtain ⟨ne, nin, ts, mde, mf, pr, mw, se, ss, scont, sw⟩ := env
  simp only at hscan hex hstat hm hcontent hmeta hwrite
  subst hex hstat hcontent hmeta hwrite
  simp only [scheduler_tick, if_neg hscan, except_pure, except_bind_ok,
    if_true, if_pos hm, load_schedule, safe_read_json, Option.getD_none,
    resolve_scheduleDefault, select_current_item, List.isEmpty_nil,
    build_status_none_none]

def c4wst : SchedState := ⟨.obj [("items", .obj [])], 0, scheduleDefault "T0", 5⟩

def c4wenv : TickEnv :=
  ⟨3, ⟨0, 0, 3⟩, "T1", false, [], fun _ => none, .ok (), true, .ok 7, none,
   .ok ()⟩

/-- Witness for the amended C4 at a concrete environment whose schedule
file exists with a new modification time but unreadable content. -/
theorem C4_amended_read_failures_caught_witness :
    scheduler_tick c4wenv c4wst
      = .ok { c4wst with schedule_cache := scheduleDefault "T1",
                         schedule_mtime := 7 } :=
  C4_amended_read_failures_caught c4wenv c4wst 7 (.obj []) []
    (by decide) rfl rfl (by decide) rfl rfl rfl

/-! ## Metadata discovery under probe failure (C5) -/

/-- Lookup after a dict update. -/
theorem alookup_dictSet {β : Type} :
    ∀ (l : List (String × β)) (k newK : String) (v : β),
      alookup k (dictSet l newK v)
        = if newK = k then some v else alookup k l := by
  intro l
  induction l with
  | nil => intro k newK v; simp [dictSet, alookup]
  | cons kv rest ih =>
      intro k newK v
      obtain ⟨k0, v0⟩ := kv
      simp only [dictSet]
      by_cases h0 : k0 = newK
      · subst h0
        by_cases hk : k0 = k
        · subst hk; simp [alookup]
        · simp [alookup, hk]
      · simp only [if_neg h0, alookup, ih]
        by_cases hk : k0 = k
        · subst hk
          rw [if_pos rfl, if_neg (fun he => h0 he.symm), if_pos rfl]
        · simp [hk]

/-- The default metadata `ffprobe_metadata` produces when the probe
raises: title from the file stem, empty description and air date, no
duration. -/
theorem ffprobe_metadata_none (f : MFile) :
    ffprobe_metadata none f
      = .ok [("title", .str f.stem), ("description", .str ""),
             ("original_air_date", .str ""), ("duration_seconds", .null)] := rfl

/-- A discovery step for a file of unsupported extension, or any
successful step for a file with a different name, leaves other keys'
lookups unchanged. -/
theorem discoverStep_preserves (images : List (String × MFile))
    (probe : MFile → Option Json) (acc : List (String × Json)) (f : MFile)
    (acc' : List (String × Json)) (k : String)
    (h : discoverStep images probe acc f = .ok acc') (hne : f.name ≠ k) :
    alookup k acc' = alookup k acc := by
  by_cases hv : strLower f.ext ∈ SUPPORTED_VIDEO_EXTS
  · simp only [discoverStep, if_pos hv] at h
    cases hf : ffprobe_metadata (probe f) f with
    | error e => rw [hf, except_bind_error] at h; simp at h
    | ok md =>
        rw [hf, except_bind_ok, except_pure, Except.ok.injEq] at h
        subst h
        rw [alookup_dictSet, if_neg hne]
  · by_cases ha : strLower f.ext ∈ SUPPORTED_AUDIO_EXTS
    · simp only [discoverStep, if_neg hv, if_pos ha] at h
      cases hf : ffprobe_metadata (probe f) f with
      | error e => rw [hf, except_bind_error] at h; simp at h
      | ok md =>
          rw [hf, except_bind_ok, except_pure, Except.ok.injEq] at h
          subst h
          rw [alookup_dictSet, if_neg hne]
    · simp only [discoverStep, if_neg hv, if_neg ha, except_pure,
        Except.ok.injEq] at h
      subst h
      rfl

/-- Folding discovery over files none of which carries a given name
leaves that name's lookup unchanged. -/
theorem discoverFold_preserves (images : List (String × MFile))
    (probe : MFile → Option Json) :
    ∀ (files : List MFile) (acc items : List (String × Json)) (k : String),
      discoverFold images probe files acc = .ok items →
      (∀ g ∈ files, g.name ≠ k) →
      alookup k items = alookup k acc := by
  intro files
  induction files with
  | nil =>
      intro acc items k h _
      simp only [discoverFold, Except.ok.injEq] at h
      subst h; rfl
  | cons f rest ih =>
      intro acc items k h hnone
      simp only [discoverFold] at h
      cases hs : discoverStep images probe acc f with
      | error e => rw [hs] at h; simp at h
      | ok acc' =>
          rw [hs] at h
          rw [ih acc' items k h (fun g hg => hnone g (List.mem_cons_of_mem f hg))]
          exact discoverStep_preserves images probe acc f acc' k hs
            (hnone f (List.mem_cons_self f rest))

/-- A discovery step for an eligible file whose probe fails still inserts
that file under its name, with default metadata. -/
theorem discoverStep_probe_failure (images : List (String × MFile))
    (probe : MFile → Option Json) (acc : List (String × Json)) (f : MFile)
    (hp : probe f = none)
    (he : strLower f.ext ∈ SUPPORTED_VIDEO_EXTS
          ∨ strLower f.ext ∈ SUPPORTED_AUDIO_EXTS) :
    ∃ kvs, discoverStep images probe acc f
        = .ok (dictSet acc f.name (.obj kvs))
      ∧ alookup "title" kvs = some (.str f.stem)
      ∧ alookup "description" kvs = some (.str "")
      ∧ alookup "duration_seconds" kvs = some .null
      ∧ alookup "path" kvs = some (.str f.path) := by
  rcases he with hv | ha
  · refine ⟨[("type", .str "video"), ("path", .str f.path),
        ("title", .str f.stem), ("description", .str ""),
        ("original_air_date", .str ""), ("duration_seconds", .null)],
      ?_, rfl, rfl, rfl, rfl⟩
    simp only [discoverStep, if_pos hv, hp, ffprobe_metadata_none,
      except_bind_ok, except_pure]
    rfl
  · have hv : strLower f.ext ∉ SUPPORTED_VIDEO_EXTS := by
      intro hv
      have hd : ∀ x ∈ SUPPORTED_AUDIO_EXTS, x ∉ SUPPORTED_VIDEO_EXTS := by decide
      exact hd _ ha hv
    refine ⟨[("type", .str "audio"), ("path", .str f.path),
        ("image_path", match alookup f.stem images with
                       | some ip => .str ip.path
                       | none => .null),
        ("title", .str f.stem), ("description", .str ""),
        ("original_air_date", .str ""), ("duration_seconds", .null)],
      ?_, rfl, rfl, rfl, rfl⟩
    simp only [discoverStep, if_neg hv, if_pos ha, hp, ffprobe_metadata_none,
      except_bind_ok, except_pure]
    rfl

/-- When a whole discovery pass succeeds, an eligible file whose probe
failed — and whose name no other listed file shares — is present in the
result under its name, carrying the default metadata. -/
theorem discoverFold_probe_failure (images : List (String × MFile))
    (probe : MFile → Option Json) :
    ∀ (files : List MFile) (acc items : List (String × Json)) (f : MFile),
      discoverFold images probe files acc = .ok items →
      f ∈ files →
      (∀ g ∈ files, g.name = f.name → g = f) →
      probe f = none →
      (strLower f.ext ∈ SUPPORTED_VIDEO_EXTS
        ∨ strLower f.ext ∈ SUPPORTED_AUDIO_EXTS) →
      ∃ kvs, alookup f.name items = some (.obj kvs)
        ∧ alookup "title" kvs = some (.str f.stem)
        ∧ alookup "description" kvs = some (.str "")
        ∧ alookup "duration_seconds" kvs = some .null
        ∧ alookup "path" kvs = some (.str f.path) := by
  intro files
  induction files with
  | nil => intro acc items f _ hmem; simp at hmem
  | cons g rest ih =>
      intro acc items f h hmem huniq hp he
      simp only [discoverFold] at h
      cases hs : discoverStep images probe acc g with
      | error e => rw [hs] at h; simp at h
      | ok acc' =>
          rw [hs] at h
          by_cases hgf : g = f
          · subst hgf
            by_cases hin : g ∈ rest
            · exact ih acc' items g h hin
                (fun x hx hxn => huniq x (List.mem_cons_of_mem g hx) hxn) hp he
            · obtain ⟨kvs, hstep, ht, hd, hdur, hpath⟩ :=
                discoverStep_probe_failure images probe acc g hp he
              rw [hstep, Except.ok.injEq] at hs
              have hrest : ∀ x ∈ rest, x.name ≠ g.name := by
                intro x hx hxn
                exact hin (huniq x (List.mem_cons_of_mem g hx) hxn ▸ hx)
              have := discoverFold_preserves images probe rest acc' items
                g.name h hrest
              refine ⟨kvs, ?_, ht, hd, hdur, hpath⟩
              rw [this, ← hs, alookup_dictSet, if_pos rfl]
          · have hmem' : f ∈ rest := by
              rcases List.mem_cons.mp hmem with h1 | h1
              · exact absurd h1.symm hgf
              · exact h1
            exact ih acc' items f h hmem'
              (fun x hx hxn => huniq x (List.mem_cons_of_mem g hx) hxn) hp he

def c5file : MFile := ⟨"song", ".mp3", "broadcast_media/song.mp3"⟩

def c5items : List (String × Json) :=
  [("song.mp3", .obj
    [("type", .str "audio"), ("path", .str "broadcast_media/song.mp3"),
     ("image_path", .null), ("title", .str "song"), ("description", .str ""),
     ("original_air_date", .str ""), ("duration_seconds", .null)])]

/-- Counterexample to C5 as stated: for a media file whose probe fails,
`ffprobe_metadata` catches the failure and returns default fields, so
`discover_media` still maps the file's name — the claim that the file has
no key in the refreshed items mapping is false. -/
theorem C5_counterexample :
    discover_media true [c5file] (fun _ => none) = .ok c5items
    ∧ (alookup "song.mp3" c5items).isSome = true := ⟨rfl, rfl⟩

/-- C5 amended: for every media file discovered during a refresh, if
probing that file fails, the file is still included in the resulting
mapping under its name, with default metadata (title = file stem, empty
description, no duration), and the refresh of the remaining files still
completes. -/
theorem C5_amended_default_on_probe_failure (all_files : List MFile)
    (probe : MFile → Option Json) (items : List (String × Json)) (f : MFile)
    (hok : discover_media true all_files probe = .ok items)
    (hmem : f ∈ all_files)
    (huniq : ∀ g ∈ all_files, g.name = f.name → g = f)
    (hp : probe f = none)
    (he : strLower f.ext ∈ SUPPORTED_VIDEO_EXTS
          ∨ strLower f.ext ∈ SUPPORTED_AUDIO_EXTS) :
    ∃ kvs, alookup f.name items = some (.obj kvs)
      ∧ alookup "title" kvs = some (.str f.stem)
      ∧ alookup "description" kvs = some (.str "")
      ∧ alookup "duration_seconds" kvs = some .null
      ∧ alookup "path" kvs = some (.str f.path) := by
  unfold discover_media at hok
  rw [if_pos rfl] at hok
  exact discoverFold_probe_failure (images_by_stem all_files) probe all_files
    [] items f hok hmem huniq hp he

/-- Witness for the amended C5 at the one-file listing whose probe
fails. -/
theorem C5_amended_default_on_probe_failure_witness :
    ∃ kvs, alookup "song.mp3" c5items = some (.obj kvs)
      ∧ alookup "title" kvs = some (.str "song")
      ∧ alookup "description" kvs = some (.str "")
      ∧ alookup "duration_seconds" kvs = some .null
      ∧ alookup "path" kvs = some (.str "broadcast_media/song.mp3") :=
  C5_amended_default_on_probe_failure [c5file] (fun _ => none) c5items c5file
    rfl (List.mem_singleton.mpr rfl)
    (fun g hg _ => List.mem_singleton.mp hg) rfl
    (Or.inr (by decide))

/-! ## Status building (C8, C10) -/

theorem pyGet_items_obj (im : List (String × Json)) (dflt : Json) :
    pyGet (.obj [("items", .obj im)]) "items" dflt = .ok (.obj im) := rfl

theorem dictGetByKey_obj_str (im : List (String × Json)) (k : String) :
    dictGetByKey (.obj im) (.str k) = .ok ((alookup k im).getD .null) := rfl

/-- Closed form of `build_status` for a present current item whose media
key is a string and whose display duration converts. -/
theorem build_status_current (ci : NormItem) (nxt : Option NormItem)
    (im : List (String × Json)) (now : Int) (k : String) (dd : Int)
    (hmedia : alookup "media" ci.fields = some (.str k))
    (hdd : pyIntOf ((alookup "metadata_display_duration" ci.fields).getD (.int 10))
            = .ok dd) :
    build_status (some ci) nxt (.obj [("items", .obj im)]) now
      = .ok { current_utc := now,
              current_item := some ⟨dictGetD ci.fields "time", .str k,
                (alookup "metadata_display_duration" ci.fields).getD (.int 10)⟩,
              next_item := match nxt with
                           | none => none
                           | some nx => some ⟨dictGetD nx.fields "time",
                                              dictGetD nx.fields "media"⟩,
              metadata := (alookup k im).getD .null,
              display_until_utc := some (now + dd) } := by
  cases nxt with
  | none =>
      simp only [build_status, pyGet_items_obj, except_bind_ok, dictGetD,
        hmedia, Option.getD_some, dictGetByKey_obj_str, hdd, except_pure]
  | some nx =>
      simp only [build_status, pyGet_items_obj, except_bind_ok, dictGetD,
        hmedia, Option.getD_some, dictGetByKey_obj_str, hdd, except_pure]

/-- C8: whenever a status is built with a present current item (and a
metadata cache of the published shape), the snapshot's `display_until_utc`
is the snapshot instant plus the converted `metadata_display_duration`,
and `metadata` is the mapping's entry under the current item's media key,
absent (null) when the key is missing. -/
theorem C8_display_until_and_metadata (ci : NormItem) (nxt : Option NormItem)
    (im : List (String × Json)) (now : Int) (st : Status) (k : String)
    (hmedia : alookup "media" ci.fields = some (.str k))
    (hok : build_status (some ci) nxt (.obj [("items", .obj im)]) now = .ok st) :
    st.current_utc = now
    ∧ st.metadata = (alookup k im).getD .null
    ∧ (∃ dd : Int,
        pyIntOf ((alookup "metadata_display_duration" ci.fields).getD (.int 10))
          = .ok dd
        ∧ st.display_until_utc = some (now + dd))
    ∧ (st.current_item).map CurrentOut.media = some (.str k) := by
  cases hdd : pyIntOf ((alookup "metadata_display_duration" ci.fields).getD (.int 10)) with
  | error e =>
      exfalso
      simp only [build_status, pyGet_items_obj, except_bind_ok, dictGetD,
        hmedia, Option.getD_some, dictGetByKey_obj_str, hdd,
        except_bind_error] at hok
      cases nxt <;> simp at hok
  | ok dd =>
      rw [build_status_current ci nxt im now k dd hmedia hdd,
        Except.ok.injEq] at hok
      subst hok
      exact ⟨rfl, rfl, ⟨dd, rfl, rfl⟩, rfl⟩

def c8kvsA : List (String × Json) :=
  [("time", Json.str "08:00:00"), ("media", Json.str "showA"),
   ("metadata_display_duration", Json.int 10)]

def c8kvsB : List (String × Json) :=
  [("time", Json.str "20:00:00"), ("media", Json.str "showB"),
   ("metadata_display_duration", Json.int 5)]

def c8itemA : NormItem := ⟨c8kvsA, 28800⟩

def c8itemB : NormItem := ⟨c8kvsB, 72000⟩

def c8sched : Json := .obj [("items", .arr [.obj c8kvsA, .obj c8kvsB])]

def c8status : Status :=
  ⟨34200, some ⟨.str "08:00:00", .str "showA", .int 10⟩,
   some ⟨.str "20:00:00", .str "showB"⟩, .null, some 34210⟩

/-- Witness for C8, which is exactly the spec's end-to-end example:
schedule [08:00:00 showA 10, 20:00:00 showB 5] at 09:30:00 UTC (epoch
34200 of day zero) yields current media "showA" with display duration 10,
`display_until_utc` = epoch 34210 (i.e. 09:30:10Z), and next media
"showB". -/
theorem C8_display_until_and_metadata_witness :
    resolve_schedule_items c8sched = .ok [c8itemA, c8itemB]
    ∧ select_current_item [c8itemA, c8itemB] ⟨9, 30, 0⟩
        = (some c8itemA, some c8itemB)
    ∧ build_status (some c8itemA) (some c8itemB) (.obj [("items", .obj [])]) 34200
        = .ok c8status
    ∧ c8status.current_utc = 34200
    ∧ c8status.metadata = (alookup "showA" ([] : List (String × Json))).getD .null
    ∧ (∃ dd : Int,
        pyIntOf ((alookup "metadata_display_duration" c8itemA.fields).getD (.int 10))
          = .ok dd
        ∧ c8status.display_until_utc = some (34200 + dd))
    ∧ (c8status.current_item).map CurrentOut.media = some (.str "showA")
    ∧ (c8status.current_item).map CurrentOut.metadata_display_duration
        = some (.int 10)
    ∧ (c8status.next_item).map NextOut.media = some (.str "showB")
    ∧ ((34210 : Int) / 3600 % 24 = 9 ∧ (34210 : Int) / 60 % 60 = 30
        ∧ (34210 : Int) % 60 = 10) := by
  have h := C8_display_until_and_metadata c8itemA (some c8itemB) [] 34200
    c8status "showA" rfl rfl
  exact ⟨rfl, rfl, rfl, h.1, h.2.1, h.2.2.1, h.2.2.2, rfl, rfl, by decide⟩

theorem dictGetByKey_hashable (im : List (String × Json)) (key : Json)
    (hkey : key.hashableKey = true) :
    ∃ mv, dictGetByKey (.obj im) key = .ok mv := by
  cases key with
  | arr xs => simp [Json.hashableKey] at hkey
  | obj kvs => simp [Json.hashableKey] at hkey
  | null => exact ⟨.null, rfl⟩
  | bool b => exact ⟨.null, rfl⟩
  | int n => exact ⟨.null, rfl⟩
  | str s => exact ⟨(alookup s im).getD .null, rfl⟩

/-- C10: when the current item has no `metadata_display_duration` field,
`build_status` uses the default of 10 seconds: the publish succeeds, the
published duration is the integer 10, and `display_until_utc` is the
snapshot instant plus 10 seconds. -/
theorem C10_default_display_duration (ci : NormItem) (nxt : Option NormItem)
    (im : List (String × Json)) (now : Int)
    (hno : alookup "metadata_display_duration" ci.fields = none)
    (hkey : (dictGetD ci.fields "media").hashableKey = true) :
    ∃ st, build_status (some ci) nxt (.obj [("items", .obj im)]) now = .ok st
      ∧ (st.current_item).map CurrentOut.metadata_display_duration
          = some (.int 10)
      ∧ st.display_until_utc = some (now + 10) := by
  obtain ⟨mv, hmv⟩ := dictGetByKey_hashable im (dictGetD ci.fields "media") hkey
  cases nxt with
  | none =>
      refine ⟨⟨now, some ⟨dictGetD ci.fields "time", dictGetD ci.fields "media",
          .int 10⟩, none, mv, some (now + 10)⟩, ?_, rfl, rfl⟩
      simp only [build_status, pyGet_items_obj, except_bind_ok, hno,
        Option.getD_none, hmv, pyIntOf, except_pure]
  | some nx =>
      refine ⟨⟨now, some ⟨dictGetD ci.fields "time", dictGetD ci.fields "media",
          .int 10⟩, some ⟨dictGetD nx.fields "time", dictGetD nx.fields "media"⟩,
          mv, some (now + 10)⟩, ?_, rfl, rfl⟩
      simp only [build_status, pyGet_items_obj, except_bind_ok, hno,
        Option.getD_none, hmv, pyIntOf, except_pure]

def c10ci : NormItem := ⟨[("time", Json.str "00:00:00"), ("media", Json.str "x")], 0⟩

/-- Witness for C10 at a concrete current item lacking the duration
field. -/
theorem C10_default_display_duration_witness :
    ∃ st, build_status (some c10ci) none (.obj [("items", .obj [])]) 0 = .ok st
      ∧ (st.current_item).map CurrentOut.metadata_display_duration
          = some (.int 10)
      ∧ st.display_until_utc = some (0 + 10) :=
  C10_default_display_duration c10ci none [] 0 rfl rfl

/-! ## Atomic status publication (C9) -/

/-- C9: `atomic_write_json` writes the serialized document to the
temporary path — which is never the canonical path — so a reader of the
canonical path during the temporary write (of any partial content `mid`)
still sees the previous content, and after the rename sees exactly the
new complete serialized document. -/
theorem C9_atomic_publish (fs : FS) (p : PurePath) (data : Json) (mid : String) :
    tmp_path p ≠ p
    ∧ write_text fs (tmp_path p) mid p = fs p
    ∧ atomic_write_json fs p data p = some (json_dumps data) := by
  have hne : tmp_path p ≠ p := by
    intro h
    have hsuf : p.suffix ++ ".tmp" = p.suffix := congrArg PurePath.suffix h
    have hlen := congrArg String.length hsuf
    rw [String.length_append] at hlen
    have h4 : (".tmp" : String).length = 4 := rfl
    omega
  refine ⟨hne, ?_, ?_⟩
  · unfold write_text
    exact if_neg (fun h => hne h.symm)
  · unfold atomic_write_json fsReplace write_text
    rw [if_pos rfl, if_pos rfl]

end Syncer
